import Mathlib

/-!
Verification development for the EasyDeL Mixtral flax module
(src/lib/python/EasyDel/modules/mixtral/modelling_mixtral_flax.py).

The numeric code is embedded shallowly over the rationals.  Tensors become
functions out of `Fin`, a row of a matrix becomes `Fin n → ℚ`, and the
exponential used by `jax.nn.softmax` is abstracted by a parameter
`f : ℚ → ℚ` that the theorems constrain to be positive (and, where the
source relies on it, strictly monotone).  `expQ` below is a concrete
computable function with both properties, used to instantiate witnesses.
-/

/-- Mean of a list of rationals, as computed by `jnp.mean` along an axis:
the sum of the entries divided by the length of the axis. -/
def listMean (l : List ℚ) : ℚ := l.sum / l.length

/-- Row softmax from `jax.nn.softmax(axis=-1)` applied to a list of scores,
with the exponential abstracted as `f`: entry `x` becomes
`f x / (sum of f over the list)`. -/
def softmaxList (f : ℚ → ℚ) (l : List ℚ) : List ℚ :=
  l.map fun x => f x / (l.map f).sum

/-- Row softmax over a whole `Fin E` indexed row, as `jax.nn.softmax(axis=1)`
computes it for one token row of the `(tokens, experts)` matrix. -/
def softmaxRow {E : ℕ} (f : ℚ → ℚ) (v : Fin E → ℚ) : Fin E → ℚ :=
  fun e => f (v e) / ∑ j, f (v j)

/-- A computable, everywhere positive and strictly monotone stand-in on ℚ for
the real exponential; used to instantiate the abstract softmax parameter in
witnesses. -/
def expQ (x : ℚ) : ℚ := if 0 ≤ x then x + 1 else 1 / (1 - x)

theorem expQ_pos (x : ℚ) : 0 < expQ x := by
  unfold expQ
  split
  · linarith
  · have h1 : (0:ℚ) < 1 - x := by linarith [not_le.mp (by assumption : ¬ 0 ≤ x)]
    exact div_pos one_pos h1

theorem expQ_lt_of_lt {x y : ℚ} (h : x < y) : expQ x < expQ y := by
  unfold expQ
  rcases le_or_lt 0 x with hx | hx
  · have hy : 0 ≤ y := le_of_lt (lt_of_le_of_lt hx h)
    simp only [if_pos hx, if_pos hy]
    linarith
  · rcases le_or_lt 0 y with hy | hy
    · simp only [if_neg (not_le.mpr hx), if_pos hy]
      have h1 : (1:ℚ) < 1 - x := by linarith
      have h2 : 1 / (1 - x) < 1 := by
        rw [div_lt_one (by linarith)]
        exact h1
      linarith
    · simp only [if_neg (not_le.mpr hx), if_neg (not_le.mpr hy)]
      have h1 : (0:ℚ) < 1 - y := by linarith
      have h2 : (0:ℚ) < 1 - x := by linarith
      rw [div_lt_div_iff₀ h2 h1]
      linarith

/-- The reduction step of `jax.lax.top_k` selection: the running argmax of a
list of indices under the score `v`, keeping the earlier index on ties (the
tie-breaking rule of `top_k`, which returns the smallest index among equal
values). -/
def argmaxIdx {E : ℕ} (v : Fin E → ℚ) (l : List (Fin E)) : Option (Fin E) :=
  l.foldl
    (fun best i =>
      match best with
      | none => some i
      | some b => if v b < v i then some i else some b)
    none

/-- Selection sort step for `jax.lax.top_k`: pick the argmax of the remaining
indices, then recurse on the rest.  Produces the indices of the `k` largest
entries in descending value order, ties broken towards smaller indices. -/
def topKList {E : ℕ} (v : Fin E → ℚ) : ℕ → List (Fin E) → List (Fin E)
  | 0, _ => []
  | k + 1, rem =>
    match argmaxIdx v rem with
    | none => []
    | some b => b :: topKList v k (rem.erase b)

/-- The index output of `jax.lax.top_k(v, k)` on a full row of `E` scores. -/
def topKIdx {E : ℕ} (v : Fin E → ℚ) (k : ℕ) : List (Fin E) :=
  topKList v k (List.finRange E)

theorem argmaxIdx_aux_some {E : ℕ} (v : Fin E → ℚ) (l : List (Fin E)) (a : Fin E) :
    ∃ b, l.foldl
      (fun best i =>
        match best with
        | none => some i
        | some b => if v b < v i then some i else some b)
      (some a) = some b ∧ (b = a ∨ b ∈ l) := by
  induction l generalizing a with
  | nil => exact ⟨a, rfl, Or.inl rfl⟩
  | cons x xs ih =>
    simp only [List.foldl_cons]
    by_cases h : v a < v x
    · simp only [if_pos h]
      obtain ⟨b, hb, hmem⟩ := ih x
      exact ⟨b, hb, Or.inr (hmem.elim (fun h => h ▸ List.mem_cons_self x xs)
        (fun h => List.mem_cons_of_mem x h))⟩
    · simp only [if_neg h]
      obtain ⟨b, hb, hmem⟩ := ih a
      exact ⟨b, hb, hmem.elim Or.inl (fun h => Or.inr (List.mem_cons_of_mem x h))⟩

theorem argmaxIdx_eq_none_iff {E : ℕ} (v : Fin E → ℚ) (l : List (Fin E)) :
    argmaxIdx v l = none ↔ l = [] := by
  cases l with
  | nil => simp [argmaxIdx]
  | cons x xs =>
    simp only [argmaxIdx, List.foldl_cons]
    obtain ⟨b, hb, _⟩ := argmaxIdx_aux_some v xs x
    simp [hb]

theorem argmaxIdx_mem {E : ℕ} (v : Fin E → ℚ) (l : List (Fin E)) (b : Fin E)
    (h : argmaxIdx v l = some b) : b ∈ l := by
  cases l with
  | nil => simp [argmaxIdx] at h
  | cons x xs =>
    simp only [argmaxIdx, List.foldl_cons] at h
    obtain ⟨c, hc, hmem⟩ := argmaxIdx_aux_some v xs x
    rw [hc] at h
    cases h
    exact hmem.elim (fun h => h ▸ List.mem_cons_self x xs) (fun h => List.mem_cons_of_mem x h)

theorem topKList_subset {E : ℕ} (v : Fin E → ℚ) (k : ℕ) (rem : List (Fin E)) :
    ∀ x ∈ topKList v k rem, x ∈ rem := by
  induction k generalizing rem with
  | zero => intro x hx; simp [topKList] at hx
  | succ k ih =>
    intro x hx
    simp only [topKList] at hx
    cases hb : argmaxIdx v rem with
    | none => rw [hb] at hx; simp at hx
    | some b =>
      rw [hb] at hx
      rcases List.mem_cons.mp hx with h | h
      · exact h ▸ argmaxIdx_mem v rem b hb
      · exact List.erase_subset b rem (ih (rem.erase b) x h)

theorem topKList_nodup {E : ℕ} (v : Fin E → ℚ) (k : ℕ) (rem : List (Fin E))
    (hrem : rem.Nodup) : (topKList v k rem).Nodup := by
  induction k generalizing rem with
  | zero => simp [topKList]
  | succ k ih =>
    simp only [topKList]
    cases hb : argmaxIdx v rem with
    | none => simp
    | some b =>
      refine List.nodup_cons.mpr ⟨?_, ih (rem.erase b) (hrem.erase b)⟩
      intro hmem
      exact hrem.not_mem_erase (topKList_subset v k (rem.erase b) b hmem)

theorem topKList_length {E : ℕ} (v : Fin E → ℚ) (k : ℕ) (rem : List (Fin E)) :
    (topKList v k rem).length = min k rem.length := by
  induction k generalizing rem with
  | zero => simp [topKList]
  | succ k ih =>
    simp only [topKList]
    cases hb : argmaxIdx v rem with
    | none =>
      have : rem = [] := (argmaxIdx_eq_none_iff v rem).mp hb
      simp [this]
    | some b =>
      have hmem : b ∈ rem := argmaxIdx_mem v rem b hb
      have hlen : (rem.erase b).length = rem.length - 1 := List.length_erase_of_mem hmem
      have hpos : 1 ≤ rem.length := List.length_pos.mpr (List.ne_nil_of_mem hmem)
      simp only [List.length_cons, ih, hlen]
      omega

theorem topKIdx_length {E : ℕ} (v : Fin E → ℚ) (k : ℕ) (hk : k ≤ E) :
    (topKIdx v k).length = k := by
  rw [topKIdx, topKList_length, List.length_finRange]
  omega

theorem topKIdx_nodup {E : ℕ} (v : Fin E → ℚ) (k : ℕ) : (topKIdx v k).Nodup :=
  topKList_nodup v k (List.finRange E) (List.nodup_finRange E)

theorem softmaxList_length (f : ℚ → ℚ) (l : List ℚ) :
    (softmaxList f l).length = l.length := by
  simp [softmaxList]

theorem softmaxList_sum (f : ℚ → ℚ) (hf : ∀ x, 0 < f x) (l : List ℚ) (hl : l ≠ []) :
    (softmaxList f l).sum = 1 := by
  have hS : 0 < (l.map f).sum := by
    refine List.sum_pos _ ?_ ?_
    · intro x hx
      obtain ⟨y, _, rfl⟩ := List.mem_map.mp hx
      exact hf y
    · simpa using hl
  have h1 : softmaxList f l = (l.map f).map fun y => y * ((l.map f).sum)⁻¹ := by
    rw [softmaxList, List.map_map]
    apply List.map_congr_left
    intro x _
    simp [div_eq_mul_inv]
  rw [h1, List.sum_map_mul_right]
  simp only [List.map_id_fun', id]
  exact mul_inv_cancel₀ hS.ne'

/-- Shallow embedding of `jax_load_balancing_loss_func`
(modelling_mixtral_flax.py lines 283-298) on a single 2-D `gate_logits`
array of shape `(T, E)`; the tuple branch of the source concatenates the
per-layer arrays into exactly such an array first.  Step by step:
`jax.lax.top_k(gate_logits, top_k)` keeps the `top_k` largest raw logits per
token (values and indices), `jax.nn.softmax` renormalizes the kept values,
`expert_mask` one-hot encodes the kept indices (the `max` over the
length-one inserted axis is the identity), `tokens_per_group_and_expert`
takes the mean of the mask over its `top_k` axis,
`router_prob_per_group_and_expert` takes the mean of the softmaxed weights
over their `top_k` axis, and the result is the mean over the `(T, E)`
product array, scaled by `num_experts ** 2`.  The exponential inside the
softmax is abstracted as `f`. -/
def jaxLoadBalancingLoss (f : ℚ → ℚ) (T E k : ℕ) (logits : Fin T → Fin E → ℚ) : ℚ :=
  let sel : Fin T → List (Fin E) := fun t => topKIdx (logits t) k
  let routingWeights : Fin T → List ℚ := fun t => softmaxList f ((sel t).map (logits t))
  let tokensPerGroupAndExpert : Fin T → Fin E → ℚ := fun t e =>
    listMean ((sel t).map fun j => if j = e then (1 : ℚ) else 0)
  let routerProbPerGroupAndExpert : Fin T → ℚ := fun t => listMean (routingWeights t)
  (∑ t, ∑ e, tokensPerGroupAndExpert t e * routerProbPerGroupAndExpert t)
      / ((T : ℚ) * (E : ℚ)) * (E : ℚ) ^ 2

theorem sum_indicator_list {E : ℕ} (l : List (Fin E)) :
    (∑ e : Fin E, ((l.map fun j => if j = e then (1 : ℚ) else 0).sum)) = l.length := by
  induction l with
  | nil => simp
  | cons a l ih =>
    simp only [List.map_cons, List.sum_cons, List.length_cons]
    rw [Finset.sum_add_distrib, ih]
    have : (∑ e : Fin E, if a = e then (1 : ℚ) else 0) = 1 := by simp
    push_cast
    rw [this]
    ring

/-- The ported loss is constant: because the softmaxed top-k weights of every
token sum to 1 and every token contributes exactly `k` one-hot mask rows,
the mean-over-wrong-axes formula collapses to `num_experts / top_k`
independently of the logits. -/
theorem jaxLoadBalancingLoss_const (f : ℚ → ℚ) (hf : ∀ x, 0 < f x)
    (T E k : ℕ) (hT : 0 < T) (hk : 0 < k) (hkE : k ≤ E)
    (logits : Fin T → Fin E → ℚ) :
    jaxLoadBalancingLoss f T E k logits = (E : ℚ) / (k : ℚ) := by
  have hE : 0 < E := lt_of_lt_of_le hk hkE
  have hkQ : ((k : ℚ)) ≠ 0 := by positivity
  have hTQ : ((T : ℚ)) ≠ 0 := by positivity
  have hEQ : ((E : ℚ)) ≠ 0 := by positivity
  unfold jaxLoadBalancingLoss
  have hlen : ∀ t : Fin T, (topKIdx (logits t) k).length = k := fun t =>
    topKIdx_length (logits t) k hkE
  have hselne : ∀ t : Fin T, topKIdx (logits t) k ≠ [] := by
    intro t h
    have := hlen t
    rw [h] at this
    simp at this
    omega
  have hrw : ∀ t : Fin T,
      listMean (softmaxList f ((topKIdx (logits t) k).map (logits t))) = 1 / (k : ℚ) := by
    intro t
    have hne : (topKIdx (logits t) k).map (logits t) ≠ [] := by
      simp only [ne_eq, List.map_eq_nil_iff]
      exact hselne t
    rw [listMean, softmaxList_sum f hf _ hne, softmaxList_length, List.length_map, hlen t]
  have hinner : ∀ t : Fin T,
      (∑ e : Fin E, listMean ((topKIdx (logits t) k).map fun j =>
          if j = e then (1 : ℚ) else 0)) = 1 := by
    intro t
    have h1 : ∀ e : Fin E,
        listMean ((topKIdx (logits t) k).map fun j => if j = e then (1 : ℚ) else 0)
          = ((topKIdx (logits t) k).map fun j => if j = e then (1 : ℚ) else 0).sum / (k : ℚ) := by
      intro e
      rw [listMean, List.length_map, hlen t]
    simp only [h1]
    rw [← Finset.sum_div, sum_indicator_list, hlen t]
    exact div_self hkQ
  have hsum : (∑ t : Fin T, ∑ e : Fin E,
      listMean ((topKIdx (logits t) k).map fun j => if j = e then (1 : ℚ) else 0) *
        listMean (softmaxList f ((topKIdx (logits t) k).map (logits t))))
      = (T : ℚ) * (1 / (k : ℚ)) := by
    have h1 : ∀ t : Fin T, (∑ e : Fin E,
        listMean ((topKIdx (logits t) k).map fun j => if j = e then (1 : ℚ) else 0) *
          listMean (softmaxList f ((topKIdx (logits t) k).map (logits t))))
        = 1 / (k : ℚ) := by
      intro t
      rw [← Finset.sum_mul, hinner t, hrw t, one_mul]
    simp only [h1]
    rw [Finset.sum_const, Finset.card_univ, Fintype.card_fin, nsmul_eq_mul]
  show (∑ t : Fin T, ∑ e : Fin E,
      listMean ((topKIdx (logits t) k).map fun j => if j = e then (1 : ℚ) else 0) *
        listMean (softmaxList f ((topKIdx (logits t) k).map (logits t))))
      / ((T : ℚ) * (E : ℚ)) * (E : ℚ) ^ 2 = (E : ℚ) / (k : ℚ)
  rw [hsum]
  field_simp
  ring

theorem list_map_div_sum {α : Type} (l : List α) (g : α → ℚ) (c : ℚ) :
    (l.map fun e => g e / c).sum = (l.map g).sum / c := by
  induction l with
  | nil => simp
  | cons x xs ih => simp [ih, add_div]

theorem div_div_div_cancel_den (a S Z : ℚ) (hZ : Z ≠ 0) : (a / Z) / (S / Z) = a / S := by
  rcases eq_or_ne S 0 with h | h
  · simp [h]
  · field_simp

theorem argmaxIdx_aux_congr {E : ℕ} (v w : Fin E → ℚ)
    (h : ∀ a b : Fin E, v a < v b ↔ w a < w b) (l : List (Fin E)) (a : Fin E) :
    l.foldl
      (fun best i =>
        match best with
        | none => some i
        | some b => if w b < w i then some i else some b)
      (some a) =
    l.foldl
      (fun best i =>
        match best with
        | none => some i
        | some b => if v b < v i then some i else some b)
      (some a) := by
  induction l generalizing a with
  | nil => rfl
  | cons x xs ih =>
    simp only [List.foldl_cons]
    by_cases hx : v a < v x
    · rw [if_pos ((h a x).mp hx), if_pos hx]
      exact ih x
    · rw [if_neg (fun hw => hx ((h a x).mpr hw)), if_neg hx]
      exact ih a

theorem argmaxIdx_congr {E : ℕ} (v w : Fin E → ℚ)
    (h : ∀ a b : Fin E, v a < v b ↔ w a < w b) (l : List (Fin E)) :
    argmaxIdx w l = argmaxIdx v l := by
  cases l with
  | nil => rfl
  | cons x xs =>
    simp only [argmaxIdx, List.foldl_cons]
    exact argmaxIdx_aux_congr v w h xs x

theorem topKList_congr {E : ℕ} (v w : Fin E → ℚ)
    (h : ∀ a b : Fin E, v a < v b ↔ w a < w b) (k : ℕ) (rem : List (Fin E)) :
    topKList w k rem = topKList v k rem := by
  induction k generalizing rem with
  | zero => rfl
  | succ k ih =>
    simp only [topKList, argmaxIdx_congr v w h rem]
    cases argmaxIdx v rem with
    | none => rfl
    | some b =>
      show b :: topKList w k (rem.erase b) = b :: topKList v k (rem.erase b)
      rw [ih]

/-- Expert selection of `FlaxMixtralSparseMoeBlock.__call__`
(modelling_mixtral_flax.py lines 687-691) for one token row: softmax over
all experts, then `jax.lax.top_k` of the softmaxed weights. -/
def moeBlockSelected {E : ℕ} (f : ℚ → ℚ) (v : Fin E → ℚ) (k : ℕ) : List (Fin E) :=
  topKIdx (softmaxRow f v) k

/-- The top-k softmax values kept by the block for one token (the value
output of `jax.lax.top_k` on the softmaxed row). -/
def moeBlockTopVals {E : ℕ} (f : ℚ → ℚ) (v : Fin E → ℚ) (k : ℕ) : List ℚ :=
  (moeBlockSelected f v k).map (softmaxRow f v)

/-- The block's final routing weights for one token:
`routing_weights /= jnp.sum(routing_weights, axis=-1, keepdims=True)`
renormalizes the kept softmax values to sum to 1. -/
def moeBlockRenormWeights {E : ℕ} (f : ℚ → ℚ) (v : Fin E → ℚ) (k : ℕ) : List ℚ :=
  (moeBlockTopVals f v k).map fun w => w / (moeBlockTopVals f v k).sum

/-- Expert selection of `jax_load_balancing_loss_func` for one token row
(lines 288-291): `jax.lax.top_k` directly on the raw logits. -/
def lossSelected {E : ℕ} (v : Fin E → ℚ) (k : ℕ) : List (Fin E) :=
  topKIdx v k

/-- The loss function's routing weights for one token row: softmax over the
`k` raw logits kept by `top_k`. -/
def lossRoutingWeights {E : ℕ} (f : ℚ → ℚ) (v : Fin E → ℚ) (k : ℕ) : List ℚ :=
  softmaxList f ((lossSelected v k).map v)

theorem monotone_of_lt_mono {f : ℚ → ℚ} (hmono : ∀ x y : ℚ, x < y → f x < f y)
    {x y : ℚ} (h : x ≤ y) : f x ≤ f y := by
  rcases lt_or_eq_of_le h with h | h
  · exact le_of_lt (hmono x y h)
  · rw [h]

/-- C3: for every router-logits row, taking top-k of the raw logits and then
softmaxing the kept values (the load-balancing loss computation) selects the
same expert indices and produces exactly the same k weights as softmaxing
over all experts, taking top-k, and renormalizing (the sparse MoE block
computation).  The softmax exponential is any positive strictly monotone
function. -/
theorem claim_C3_loss_topk_matches_block {E : ℕ} (f : ℚ → ℚ)
    (hpos : ∀ x, 0 < f x) (hmono : ∀ x y : ℚ, x < y → f x < f y)
    (v : Fin E → ℚ) (k : ℕ) :
    lossSelected v k = moeBlockSelected f v k ∧
    lossRoutingWeights f v k = moeBlockRenormWeights f v k := by
  rcases Nat.eq_zero_or_pos E with hE | hE
  · subst hE
    have hsel : ∀ w : Fin 0 → ℚ, topKIdx w k = [] := by
      intro w
      cases k <;> rfl
    constructor
    · rw [lossSelected, moeBlockSelected, hsel, hsel]
    · rw [lossRoutingWeights, moeBlockRenormWeights, moeBlockTopVals, moeBlockSelected,
        lossSelected, hsel, hsel]
      rfl
  · have hne : Nonempty (Fin E) := Fin.pos_iff_nonempty.mp hE
    have hZ : 0 < ∑ j, f (v j) := by
      apply Finset.sum_pos
      · intro j _
        exact hpos (v j)
      · exact Finset.univ_nonempty
    have hiff : ∀ a b : Fin E, v a < v b ↔ softmaxRow f v a < softmaxRow f v b := by
      intro a b
      show v a < v b ↔ f (v a) / (∑ j, f (v j)) < f (v b) / (∑ j, f (v j))
      rw [div_lt_div_iff_of_pos_right hZ]
      constructor
      · exact fun h => hmono (v a) (v b) h
      · intro h
        by_contra hv
        exact absurd h (not_lt.mpr (monotone_of_lt_mono hmono (not_lt.mp hv)))
    have hselEq : lossSelected v k = moeBlockSelected f v k := by
      rw [lossSelected, moeBlockSelected, topKIdx, topKIdx]
      exact (topKList_congr v (softmaxRow f v) hiff k (List.finRange E)).symm
    refine ⟨hselEq, ?_⟩
    have hA : (((lossSelected v k).map v).map f) = (lossSelected v k).map fun e => f (v e) := by
      rw [List.map_map]
      rfl
    have hL : lossRoutingWeights f v k
        = (lossSelected v k).map fun e =>
            f (v e) / (((lossSelected v k).map fun e => f (v e)).sum) := by
      rw [lossRoutingWeights, softmaxList, hA, List.map_map]
      rfl
    have hsf : (lossSelected v k).map (softmaxRow f v)
        = (lossSelected v k).map fun e => f (v e) / (∑ j, f (v j)) := rfl
    have hsum2 : ((lossSelected v k).map (softmaxRow f v)).sum
        = ((lossSelected v k).map fun e => f (v e)).sum / (∑ j, f (v j)) := by
      rw [hsf, list_map_div_sum]
    have hR : moeBlockRenormWeights f v k
        = (lossSelected v k).map fun e =>
            (f (v e) / (∑ j, f (v j))) /
              (((lossSelected v k).map fun e => f (v e)).sum / (∑ j, f (v j))) := by
      rw [moeBlockRenormWeights, moeBlockTopVals, ← hselEq, hsum2, List.map_map]
      rfl
    rw [hL, hR]
    apply List.map_congr_left
    intro e _
    exact (div_div_div_cancel_den _ _ _ hZ.ne').symm

/-- Witness for C3 at the concrete logits row (5, 1, 3) with k = 2 and the
positive strictly monotone softmax stand-in expQ. -/
theorem claim_C3_loss_topk_matches_block_witness :
    (∀ x : ℚ, 0 < expQ x) ∧ (∀ x y : ℚ, x < y → expQ x < expQ y) ∧
    (lossSelected (fun e : Fin 3 => if e.val = 0 then (5 : ℚ) else if e.val = 1 then 1 else 3) 2
        = moeBlockSelected expQ
          (fun e : Fin 3 => if e.val = 0 then (5 : ℚ) else if e.val = 1 then 1 else 3) 2 ∧
      lossRoutingWeights expQ
          (fun e : Fin 3 => if e.val = 0 then (5 : ℚ) else if e.val = 1 then 1 else 3) 2
        = moeBlockRenormWeights expQ
          (fun e : Fin 3 => if e.val = 0 then (5 : ℚ) else if e.val = 1 then 1 else 3) 2) :=
  ⟨expQ_pos, fun _ _ h => expQ_lt_of_lt h,
    claim_C3_loss_topk_matches_block expQ expQ_pos (fun _ _ h => expQ_lt_of_lt h) _ 2⟩

/-- C4: for every token row of the sparse MoE block and any configured
top-k with 1 ≤ k ≤ num_experts, the k renormalized routing weights sum to
exactly 1 (hence certainly within 1e-5 of 1), and the k selected expert
indices are pairwise distinct members of the full expert set. -/
theorem claim_C4_weights_sum_one_indices_distinct {E : ℕ} (f : ℚ → ℚ)
    (hpos : ∀ x, 0 < f x) (v : Fin E → ℚ) (k : ℕ) (hk : 0 < k) (hkE : k ≤ E) :
    (moeBlockRenormWeights f v k).sum = 1 ∧ (moeBlockSelected f v k).Nodup := by
  have hE : 0 < E := lt_of_lt_of_le hk hkE
  have hne : Nonempty (Fin E) := Fin.pos_iff_nonempty.mp hE
  have hZ : 0 < ∑ j, f (v j) := by
    apply Finset.sum_pos
    · intro j _
      exact hpos (v j)
    · exact Finset.univ_nonempty
  have hlen : (moeBlockSelected f v k).length = k :=
    topKIdx_length (softmaxRow f v) k hkE
  have hvne : moeBlockTopVals f v k ≠ [] := by
    rw [moeBlockTopVals, ne_eq, List.map_eq_nil_iff]
    intro h
    rw [h] at hlen
    simp at hlen
    omega
  have hvpos : 0 < (moeBlockTopVals f v k).sum := by
    refine List.sum_pos _ ?_ hvne
    intro x hx
    obtain ⟨e, _, rfl⟩ := List.mem_map.mp hx
    exact div_pos (hpos (v e)) hZ
  constructor
  · have h1 : (moeBlockRenormWeights f v k).sum
        = ((moeBlockTopVals f v k).map fun w => w / (moeBlockTopVals f v k).sum).sum := rfl
    have h2 : ((moeBlockTopVals f v k).map fun w => w / (moeBlockTopVals f v k).sum).sum
        = ((moeBlockTopVals f v k).map fun w => w).sum / (moeBlockTopVals f v k).sum :=
      list_map_div_sum (moeBlockTopVals f v k) (fun w => w) _
    rw [h1, h2]
    have h3 : (moeBlockTopVals f v k).map (fun w => w) = moeBlockTopVals f v k := by
      simp
    rw [h3]
    exact div_self hvpos.ne'
  · exact topKIdx_nodup (softmaxRow f v) k

/-- Witness for C4 at the concrete logits row (2, 7, 0, 4) with k = 2 and
the positive softmax stand-in expQ. -/
theorem claim_C4_weights_sum_one_indices_distinct_witness :
    (∀ x : ℚ, 0 < expQ x) ∧ 0 < 2 ∧ 2 ≤ 4 ∧
    ((moeBlockRenormWeights expQ
        (fun e : Fin 4 => if e.val = 0 then (2 : ℚ) else if e.val = 1 then 7
          else if e.val = 2 then 0 else 4) 2).sum = 1 ∧
      (moeBlockSelected expQ
        (fun e : Fin 4 => if e.val = 0 then (2 : ℚ) else if e.val = 1 then 7
          else if e.val = 2 then 0 else 4) 2).Nodup) :=
  ⟨expQ_pos, by decide, by decide,
    claim_C4_weights_sum_one_indices_distinct expQ expQ_pos _ 2 (by decide) (by decide)⟩

/-- The load-balancing loss as the spec words it (section 4.7 and claim C2):
recompute the top-k selection and weights from the raw logits as in section
4.4 steps 1-3, then take the per-expert mean fraction of tokens routed to
each expert and the per-expert mean routing probability assigned to it, and
return num_experts^2 times the mean over tokens and experts of their
product; the factors carry no token dependence, so that mean is the mean
over experts.  This definition follows the words of the spec, not the
source, and exists only to be compared with jaxLoadBalancingLoss, which
follows the source. -/
def specLoadBalancingLoss (f : ℚ → ℚ) (T E k : ℕ) (logits : Fin T → Fin E → ℚ) : ℚ :=
  let sel : Fin T → List (Fin E) := fun t => topKIdx (logits t) k
  let w : Fin T → Fin E → ℚ := fun t e =>
    if e ∈ sel t then f (logits t e) / ((sel t).map fun j => f (logits t j)).sum else 0
  let tokenFraction : Fin E → ℚ := fun e =>
    (∑ t, if e ∈ sel t then (1 : ℚ) else 0) / (T : ℚ)
  let meanRoutingProb : Fin E → ℚ := fun e => (∑ t, w t e) / (T : ℚ)
  (E : ℚ) ^ 2 * (∑ e, tokenFraction e * meanRoutingProb e) / (E : ℚ)

/-- Gate logits with two tokens and two experts, token 0 routed to expert 0
and token 1 to expert 1; a concrete input on which the ported loss and the
loss the spec describes disagree. -/
def lossBugLogits : Fin 2 → Fin 2 → ℚ := fun t e => if t = e then 2 else 0

/-- C2 (code bug): at gate logits [[2,0],[0,2]] with num_experts = 2 and
top_k = 1, the ported jax_load_balancing_loss_func returns
2 = num_experts / top_k (its constant value, independent of the logits,
because its two means run over the top_k axis instead of the token axis),
while the per-expert formula the claim states evaluates to 1. -/
theorem claim_C2_loss_formula_diverges :
    jaxLoadBalancingLoss expQ 2 2 1 lossBugLogits = 2 ∧
    specLoadBalancingLoss expQ 2 2 1 lossBugLogits = 1 := by
  have hs0 : topKIdx (lossBugLogits 0) 1 = [0] := by decide
  have hs1 : topKIdx (lossBugLogits 1) 1 = [1] := by decide
  constructor
  · simp only [jaxLoadBalancingLoss, Fin.sum_univ_two, hs0, hs1]
    norm_num [lossBugLogits, expQ, listMean, softmaxList]
  · simp only [specLoadBalancingLoss, Fin.sum_univ_two, hs0, hs1]
    norm_num [lossBugLogits, expQ]

/-- C10: the load-balancing loss is invariant under a global renaming
(permutation) of the expert indices applied to the columns of the logits;
in this port the invariance is immediate because the function is constant
at num_experts / top_k for every logits array. -/
theorem claim_C10_loss_permutation_invariant (f : ℚ → ℚ) (hf : ∀ x, 0 < f x)
    (T E k : ℕ) (hT : 0 < T) (hk : 0 < k) (hkE : k ≤ E)
    (logits : Fin T → Fin E → ℚ) (p : Equiv.Perm (Fin E)) :
    jaxLoadBalancingLoss f T E k (fun t e => logits t (p e))
      = jaxLoadBalancingLoss f T E k logits := by
  rw [jaxLoadBalancingLoss_const f hf T E k hT hk hkE,
      jaxLoadBalancingLoss_const f hf T E k hT hk hkE]

/-- Witness for C10: swapping the two expert columns of the concrete logits
leaves the loss unchanged. -/
theorem claim_C10_loss_permutation_invariant_witness :
    (∀ x : ℚ, 0 < expQ x) ∧ 0 < 2 ∧ 0 < 1 ∧ 1 ≤ 2 ∧
    jaxLoadBalancingLoss expQ 2 2 1 (fun t e => lossBugLogits t (Equiv.swap 0 1 e))
      = jaxLoadBalancingLoss expQ 2 2 1 lossBugLogits :=
  ⟨expQ_pos, by decide, by decide, by decide,
    claim_C10_loss_permutation_invariant expQ expQ_pos 2 2 1 (by decide) (by decide)
      (by decide) lossBugLogits (Equiv.swap 0 1)⟩

/-- Per-layer attention cache of `concatenate_to_cache_`: the stored key
and value tensors along the cache length axis, each slot standing for one
`(batch, heads, head_dim)` block abstracted to a single value of type α,
together with the write cursor `index` (the `cache/index` variable,
initialized to 0). -/
structure AttnCache (α : Type) (ml : ℕ) where
  key : Fin ml → α
  value : Fin ml → α
  index : ℕ

/-- `jax.lax.dynamic_update_slice` along the cache length axis: the start
index is adjusted (clamped) so that the updated window fits inside the
operand, then the window is overwritten with the update; no error is ever
raised for an out-of-range start. -/
def dynUpdateSlice {α : Type} {ml n : ℕ} (op : Fin ml → α) (upd : Fin n → α)
    (start : ℕ) : Fin ml → α :=
  let s := min start (ml - n)
  fun i =>
    if h : s ≤ i.val ∧ i.val < s + n then upd ⟨i.val - s, by omega⟩ else op i

/-- Shallow embedding of the cache-hit branch of
`FlaxMixtralAttention.concatenate_to_cache_` (lines 378-391): write the new
key and value at the cursor through `jax.lax.dynamic_update_slice` with
start indices `(0, index, 0, 0)`, advance the cursor by
`num_updated_cache_vector = query.shape[1] = n`, build the pad mask
`jnp.arange(ml) < index` against the new cursor, and combine it with the
supplied attention mask through `nn.combine_masks`.  `combine_masks` first
asserts that all masks share one rank and only then ANDs them; the pad
mask is broadcast to `tuple(bd) + (1, n, ml)`, rank 4, so the rank of the
supplied mask is tracked here as `attentionMaskRank`.  The caller at line
455 passes the attention mask before its 2-D to 4-D broadcast of lines
470-471, so on the canonical cached path that rank is 2.  On a rank
mismatch the call raises AssertionError; the cache-variable writes already
performed inside the branch are discarded together with the aborted module
apply, so the error result carries no cache. -/
def concatenateToCache {α : Type} {ml n : ℕ} (c : AttnCache α ml)
    (newKey newValue : Fin n → α) (attentionMaskRank : ℕ) (mask : Fin ml → Bool) :
    Except String (AttnCache α ml × (Fin ml → Bool)) :=
  let key := dynUpdateSlice c.key newKey c.index
  let value := dynUpdateSlice c.value newValue c.index
  let numUpdatedCacheVector := n
  let newIndex := c.index + numUpdatedCacheVector
  let padMaskRank := 4
  let padMask : Fin ml → Bool := fun i => decide (i.val < newIndex)
  if padMaskRank = attentionMaskRank then
    Except.ok (⟨key, value, newIndex⟩, fun i => padMask i && mask i)
  else
    Except.error "AssertionError: masks must have same rank"

/-- The freshly initialized cache produced by `init_cache` through the init
branch of `concatenate_to_cache_` (lines 373-377): zero-filled key and
value storage and cursor 0. -/
def mixtralInitCache (ml : ℕ) : AttnCache ℚ ml :=
  { key := fun _ => 0, value := fun _ => 0, index := 0 }

theorem dynUpdateSlice_inside {α : Type} {ml n : ℕ} (op : Fin ml → α) (upd : Fin n → α)
    (start : ℕ) (hb : start + n ≤ ml) (i : Fin ml)
    (h : start ≤ i.val ∧ i.val < start + n) :
    dynUpdateSlice op upd start i = upd ⟨i.val - start, by omega⟩ := by
  have hs : min start (ml - n) = start := by omega
  simp only [dynUpdateSlice, hs]
  rw [dif_pos h]

theorem dynUpdateSlice_outside {α : Type} {ml n : ℕ} (op : Fin ml → α) (upd : Fin n → α)
    (start : ℕ) (hb : start + n ≤ ml) (i : Fin ml)
    (h : i.val < start ∨ start + n ≤ i.val) :
    dynUpdateSlice op upd start i = op i := by
  have hs : min start (ml - n) = start := by omega
  simp only [dynUpdateSlice, hs]
  rw [dif_neg (by omega)]

theorem dynUpdateSlice_clamped {α : Type} {ml n : ℕ} (op : Fin ml → α) (upd : Fin n → α)
    (start : ℕ) (hn : n ≤ ml) (hov : ml < start + n) (i : Fin ml)
    (h : ml - n ≤ i.val) :
    dynUpdateSlice op upd start i = upd ⟨i.val - (ml - n), by have := i.isLt; omega⟩ := by
  have hs : min start (ml - n) = ml - n := by omega
  have hi := i.isLt
  simp only [dynUpdateSlice, hs]
  rw [dif_pos ⟨h, by omega⟩]

theorem concatenateToCache_rank4 {α : Type} {ml n : ℕ} (c : AttnCache α ml)
    (newKey newValue : Fin n → α) (mask : Fin ml → Bool) :
    concatenateToCache c newKey newValue 4 mask
      = Except.ok
          (⟨dynUpdateSlice c.key newKey c.index, dynUpdateSlice c.value newValue c.index,
              c.index + n⟩,
            fun i => decide (i.val < c.index + n) && mask i) := rfl

theorem concatenateToCache_rank_mismatch {α : Type} {ml n : ℕ} (c : AttnCache α ml)
    (newKey newValue : Fin n → α) (attentionMaskRank : ℕ) (mask : Fin ml → Bool)
    (h : attentionMaskRank ≠ 4) :
    concatenateToCache c newKey newValue attentionMaskRank mask
      = Except.error "AssertionError: masks must have same rank" := by
  simp only [concatenateToCache]
  rw [if_neg (by omega)]

/-- C5 (code bug): on the canonical cached path the supplied attention
mask still has rank 2 when `concatenate_to_cache_` combines it with the
rank-4 pad mask - its 2-D to 4-D broadcast only happens after the cache
branch, at lines 470-471 - so `nn.combine_masks` fails its equal-rank
assertion: every cached attention call raises AssertionError, in
particular the first single-token step after InitCache(1, 8), instead of
returning the cursor advance and extended mask the claim describes. -/
theorem claim_C5_cached_call_raises_rank_assertion :
    (∀ (ml n : ℕ) (c : AttnCache ℚ ml) (newKey newValue : Fin n → ℚ)
      (mask : Fin ml → Bool),
      concatenateToCache c newKey newValue 2 mask
        = Except.error "AssertionError: masks must have same rank") ∧
    concatenateToCache (mixtralInitCache 8) (fun _ : Fin 1 => (5 : ℚ)) (fun _ => 6) 2
        (fun _ => true)
      = Except.error "AssertionError: masks must have same rank" := by
  constructor
  · intro ml n c newKey newValue mask
    exact concatenateToCache_rank_mismatch c newKey newValue 2 mask (by omega)
  · exact concatenateToCache_rank_mismatch (mixtralInitCache 8) (fun _ : Fin 1 => (5 : ℚ))
      (fun _ => 6) 2 (fun _ => true) (by omega)

/-- A fully occupied cache of allocated length 2 whose cursor already
equals the allocated length; the next single-token write overflows. -/
def fullCache2 : AttnCache ℚ 2 :=
  { key := fun _ => 0, value := fun _ => 0, index := 2 }

/-- C6 counterexample: at the concrete overflowing input (cursor 2 plus 1
new position exceeds the allocated length 2) the claim fails both ways.
With mask ranks matching (a pre-broadcast rank-4 mask) the call does not
fail at all: it returns a cache in which the new key has been silently
written at the clamped slot 1 = length - 1 and the cursor has advanced to
3, past the allocated length - no CacheBoundsError, and the write was
silently clamped.  With the canonical rank-2 mask the call does fail, but
only with the same rank AssertionError that an in-bounds single-token call
on a fresh InitCache(1, 8) cache raises, so the failure is not a bounds
check. -/
theorem claim_C6_counterexample :
    ((concatenateToCache fullCache2 (fun _ : Fin 1 => (5 : ℚ)) (fun _ => 6) 4
        (fun _ => true)).toOption.map (fun out => (out.1.key ⟨1, by omega⟩, out.1.index))
      = some (5, 3)) ∧
    (concatenateToCache fullCache2 (fun _ : Fin 1 => (5 : ℚ)) (fun _ => 6) 2 (fun _ => true)
      = Except.error "AssertionError: masks must have same rank") ∧
    (concatenateToCache (mixtralInitCache 8) (fun _ : Fin 1 => (5 : ℚ)) (fun _ => 6) 2
        (fun _ => true)
      = Except.error "AssertionError: masks must have same rank") := by
  refine ⟨by decide, rfl, rfl⟩

/-- C6 amended: the source has no bounds check and no CacheBoundsError.
When the supplied mask already has the pad mask's rank, so that the call
gets past `nn.combine_masks`, an overflowing write does not fail and
nothing is resized: `jax.lax.dynamic_update_slice` clamps the write start
down to `length - n`, the new keys and values silently overwrite the last
`n` slots, and the cursor still advances by `n`, ending beyond the
allocated length.  With the canonical rank-2 mask the call instead raises
the rank AssertionError, an error every cached call raises regardless of
bounds. -/
theorem claim_C6_amended {α : Type} {ml n : ℕ} (c : AttnCache α ml)
    (newKey newValue : Fin n → α) (mask : Fin ml → Bool)
    (hov : ml < c.index + n) (hn : n ≤ ml) :
    ((concatenateToCache c newKey newValue 4 mask).toOption.map (fun out => out.1.index)
        = some (c.index + n) ∧ ml < c.index + n) ∧
    (∀ i : Fin ml, ∀ h : ml - n ≤ i.val,
        (concatenateToCache c newKey newValue 4 mask).toOption.map (fun out => out.1.key i)
          = some (newKey ⟨i.val - (ml - n), by have := i.isLt; omega⟩) ∧
        (concatenateToCache c newKey newValue 4 mask).toOption.map (fun out => out.1.value i)
          = some (newValue ⟨i.val - (ml - n), by have := i.isLt; omega⟩)) ∧
    (concatenateToCache c newKey newValue 2 mask
        = Except.error "AssertionError: masks must have same rank") := by
  refine ⟨⟨?_, hov⟩, ?_, concatenateToCache_rank_mismatch c newKey newValue 2 mask (by omega)⟩
  · rw [concatenateToCache_rank4]
    rfl
  · intro i h
    rw [concatenateToCache_rank4]
    constructor
    · show some (dynUpdateSlice c.key newKey c.index i) = _
      rw [dynUpdateSlice_clamped c.key newKey c.index hn hov i h]
    · show some (dynUpdateSlice c.value newValue c.index i) = _
      rw [dynUpdateSlice_clamped c.value newValue c.index hn hov i h]

/-- Witness for the amended C6 at the concrete overflowing call on
fullCache2: the hypotheses hold concretely and the cursor part of the
conclusion is taken from the theorem. -/
theorem claim_C6_amended_witness :
    (2 < fullCache2.index + 1) ∧ (1 ≤ 2) ∧
    ((concatenateToCache fullCache2 (fun _ : Fin 1 => (5 : ℚ)) (fun _ => 6) 4
        (fun _ => true)).toOption.map (fun out => out.1.index)
      = some (fullCache2.index + 1) ∧ 2 < fullCache2.index + 1) :=
  ⟨by decide, by decide,
    (claim_C6_amended fullCache2 (fun _ : Fin 1 => (5 : ℚ)) (fun _ => 6) (fun _ => true)
      (by decide) (by decide)).1⟩

/-- Head dimension as computed in `FlaxMixtralAttention.setup` (line 351):
`hidden_size // num_attention_heads`, Python floor division. -/
def headDim (hidden heads : ℕ) : ℕ := hidden / heads

/-- Number of key/value groups as computed in `setup` (line 353):
`num_attention_heads // num_key_value_heads`. -/
def numKeyValueGroups (heads kvHeads : ℕ) : ℕ := heads / kvHeads

/-- `jnp.transpose(x, (0, 2, 1, 3))` on rank-4 shapes (the `_t` helper of
`FlaxMixtralAttention`, lines 394-396). -/
def transposeShape0213 (s : ℕ × ℕ × ℕ × ℕ) : ℕ × ℕ × ℕ × ℕ :=
  (s.1, s.2.2.1, s.2.1, s.2.2.2)

/-- Modelled from the spec: `repeat_kv_bnsh` is imported from
`flax_modelling_utils`, a file of this repository that is not among the
sources; spec section 4.2 says the key/value heads "are repeated to match
Q head count before scoring", and in the batch-heads-seq-dim layout it is
called in, that multiplies the heads axis (axis 1) by the repetition
count. -/
def repeatKvBnshShape (nRep : ℕ) (s : ℕ × ℕ × ℕ × ℕ) : ℕ × ℕ × ℕ × ℕ :=
  (s.1, s.2.1 * nRep, s.2.2.1, s.2.2.2)

/-- Shape of the key tensor returned by `FlaxMixtralAttention.t_rotary`
(lines 398-407) on a batch of `b` sequences of length `s`: reshape to
`(b, s, kv_heads, head_dim)`, transpose to heads-second layout, apply the
rotary embedding (shape preserving), repeat the key/value heads by the
group count, transpose back. -/
def tRotaryKeyShape (hidden heads kvHeads b s : ℕ) : ℕ × ℕ × ℕ × ℕ :=
  transposeShape0213
    (repeatKvBnshShape (numKeyValueGroups heads kvHeads)
      (transposeShape0213 (b, s, kvHeads, headDim hidden heads)))

/-- Shape of the per-layer key/value cache storage allocated by
`init_cache`: `init_cache` runs the module on a ones input of shape
`(batch_size, max_length)` (lines 973-982), and the init branch of
`concatenate_to_cache_` zero-fills both cache variables with `key.shape`
(lines 375-376), the post-`t_rotary` key shape. -/
def initCacheKeyShape (hidden heads kvHeads batch maxLength : ℕ) : ℕ × ℕ × ℕ × ℕ :=
  tRotaryKeyShape hidden heads kvHeads batch maxLength

/-- C7 counterexample: with hidden = 64, heads = 4, kv_heads = 2, the cache
storage allocated for batch 1 and max_length 8 has shape (1, 8, 4, 16),
carrying the full query-head count in the heads axis, not the key/value
head count (1, 8, 2, 16) that the claim states. -/
theorem claim_C7_counterexample :
    initCacheKeyShape 64 4 2 1 8 ≠ (1, 8, 2, 16) := by decide

/-- C7 amended: InitCache allocates zero-filled per-layer key and value
storage with write cursor 0, but the storage shape is
(batch, max_length, num_attention_heads, head_dim): the key/value heads
are repeated up to the query-head count inside t_rotary before the cache
variables are created from key.shape. -/
theorem claim_C7_amended (hidden heads kvHeads batch maxLength : ℕ)
    (hdvd : kvHeads ∣ heads) :
    initCacheKeyShape hidden heads kvHeads batch maxLength
      = (batch, maxLength, heads, headDim hidden heads) ∧
    (mixtralInitCache maxLength).index = 0 ∧
    (∀ i : Fin maxLength, (mixtralInitCache maxLength).key i = 0 ∧
      (mixtralInitCache maxLength).value i = 0) := by
  refine ⟨?_, rfl, fun i => ⟨rfl, rfl⟩⟩
  simp only [initCacheKeyShape, tRotaryKeyShape, transposeShape0213, repeatKvBnshShape,
    numKeyValueGroups]
  rw [Nat.mul_div_cancel' hdvd]

/-- Witness for the amended C7 at the spec scenario configuration
(hidden 64, heads 4, kv_heads 2, batch 1, max_length 8). -/
theorem claim_C7_amended_witness :
    (2 ∣ 4) ∧
    (initCacheKeyShape 64 4 2 1 8 = (1, 8, 4, headDim 64 4) ∧
      (mixtralInitCache 8).index = 0 ∧
      (∀ i : Fin 8, (mixtralInitCache 8).key i = 0 ∧ (mixtralInitCache 8).value i = 0)) :=
  ⟨by decide, claim_C7_amended 64 4 2 1 8 (by decide)⟩

/-- The shape-determining hyperparameters stored by `MixtralConfig.__init__`
(modelling_mixtral_flax.py lines 36-158). -/
structure MixtralConfigData where
  vocabSize : ℕ
  hiddenSize : ℕ
  intermediateSize : ℕ
  numHiddenLayers : ℕ
  numAttentionHeads : ℕ
  numKeyValueHeads : ℕ
  numExpertsPerTok : ℕ
  numLocalExperts : ℕ
deriving DecidableEq

/-- Shallow embedding of `MixtralConfig.__init__`: the constructor stores
every argument unconditionally (if `num_key_value_heads` is None it falls
back to `num_attention_heads`, lines 130-134); it contains no validation of
any kind, so it never raises and is embedded as a total function. -/
def mixtralConfigInit (vocabSize hiddenSize intermediateSize numHiddenLayers
    numAttentionHeads : ℕ) (numKeyValueHeads : Option ℕ)
    (numExpertsPerTok numLocalExperts : ℕ) : MixtralConfigData :=
  { vocabSize := vocabSize
    hiddenSize := hiddenSize
    intermediateSize := intermediateSize
    numHiddenLayers := numHiddenLayers
    numAttentionHeads := numAttentionHeads
    numKeyValueHeads := numKeyValueHeads.getD numAttentionHeads
    numExpertsPerTok := numExpertsPerTok
    numLocalExperts := numLocalExperts }

/-- The feature count of the attention query projection derived in
`FlaxMixtralAttention.setup` (lines 347-366):
`num_heads * head_dim = heads * (hidden // heads)`, computed with floor
division and never checked against `hidden_size`. -/
def attentionQProjFeatures (c : MixtralConfigData) : ℕ :=
  c.numAttentionHeads * headDim c.hiddenSize c.numAttentionHeads

/-- C8 counterexample: the configuration vocab_size = 0 (violating
vocab > 0), hidden_size = 10 with 3 attention heads (violating
divisibility) and 3 experts per token out of 2 local experts (violating
top_k <= num_experts) is accepted by construction - `MixtralConfig.__init__`
returns it unchanged and raises nothing - so the constructed config
violates every invariant the claim says construction enforces; in
particular hidden % heads = 1, refuting "for every configuration accepted
by construction, hidden_size % num_attention_heads == 0 holds". -/
theorem claim_C8_counterexample :
    (mixtralConfigInit 0 10 14336 2 3 none 3 2).hiddenSize = 10 ∧
    (mixtralConfigInit 0 10 14336 2 3 none 3 2).numAttentionHeads = 3 ∧
    ¬ ((mixtralConfigInit 0 10 14336 2 3 none 3 2).hiddenSize %
          (mixtralConfigInit 0 10 14336 2 3 none 3 2).numAttentionHeads = 0 ∧
        0 < (mixtralConfigInit 0 10 14336 2 3 none 3 2).vocabSize ∧
        (mixtralConfigInit 0 10 14336 2 3 none 3 2).numExpertsPerTok ≤
          (mixtralConfigInit 0 10 14336 2 3 none 3 2).numLocalExperts) := by
  refine ⟨rfl, rfl, ?_⟩
  intro h
  exact absurd h.1 (by decide)

/-- C8 amended: model construction performs no validation at all.  The
constructor is total and stores exactly the supplied hyperparameters (with
the key/value-head None fallback); when the head count does not divide the
hidden size the only consequence is silent, inside the attention setup: the
query projection is built with heads * (hidden // heads) output features,
which then differs from hidden_size. -/
theorem claim_C8_amended (vocabSize hiddenSize intermediateSize numHiddenLayers
    numAttentionHeads : ℕ) (numKeyValueHeads : Option ℕ)
    (numExpertsPerTok numLocalExperts : ℕ) :
    (mixtralConfigInit vocabSize hiddenSize intermediateSize numHiddenLayers
        numAttentionHeads numKeyValueHeads numExpertsPerTok numLocalExperts
      = { vocabSize := vocabSize
          hiddenSize := hiddenSize
          intermediateSize := intermediateSize
          numHiddenLayers := numHiddenLayers
          numAttentionHeads := numAttentionHeads
          numKeyValueHeads := numKeyValueHeads.getD numAttentionHeads
          numExpertsPerTok := numExpertsPerTok
          numLocalExperts := numLocalExperts }) ∧
    (¬ numAttentionHeads ∣ hiddenSize →
      attentionQProjFeatures (mixtralConfigInit vocabSize hiddenSize intermediateSize
        numHiddenLayers numAttentionHeads numKeyValueHeads numExpertsPerTok
        numLocalExperts) ≠ hiddenSize) := by
  refine ⟨rfl, ?_⟩
  intro hndvd heq
  have h2 : numAttentionHeads * (hiddenSize / numAttentionHeads) = hiddenSize := heq
  exact hndvd ⟨hiddenSize / numAttentionHeads, h2.symm⟩

/-- Witness for the amended C8 at the violating configuration
(vocab 0, hidden 10, heads 3, top_k 3 > 2 experts). -/
theorem claim_C8_amended_witness :
    (¬ (3 : ℕ) ∣ 10) ∧
    (mixtralConfigInit 0 10 14336 2 3 none 3 2
        = { vocabSize := 0
            hiddenSize := 10
            intermediateSize := 14336
            numHiddenLayers := 2
            numAttentionHeads := 3
            numKeyValueHeads := 3
            numExpertsPerTok := 3
            numLocalExperts := 2 } ∧
      attentionQProjFeatures (mixtralConfigInit 0 10 14336 2 3 none 3 2) ≠ 10) := by
  have h := claim_C8_amended 0 10 14336 2 3 none 3 2
  exact ⟨by decide, h.1, h.2 (by decide)⟩

/-- Output shape of `nn.Embed(vocab_size, hidden_size)` on an input-id
batch of shape (b, s) (`FlaxMixtralModule.setup` lines 1089-1094 and the
`embed_tokens` call at line 1133). -/
def embedTokensShape (hiddenSize b s : ℕ) : ℕ × ℕ × ℕ := (b, s, hiddenSize)

/-- Shape behaviour of one decoder layer
(`FlaxMixtralDecoderLayer.__call__`, lines 737-792): the attention
sub-layer reshapes to (b, s, hidden) and projects through o_proj (line
558), the MoE sub-layer reshapes its combined output to (b, s, hidden)
(line 648), and the RMS norms and residual additions preserve the shape. -/
def decoderLayerShape (hiddenSize : ℕ) (sh : ℕ × ℕ × ℕ) : ℕ × ℕ × ℕ :=
  (sh.1, sh.2.1, hiddenSize)

/-- Shape behaviour of the decoder stack
(`FlaxMixtralDecoderLayerCollection.__call__`, lines 850-865): sequential
application of `num_hidden_layers` decoder layers. -/
def decoderStackShape (numLayers hiddenSize : ℕ) (sh : ℕ × ℕ × ℕ) : ℕ × ℕ × ℕ :=
  (List.range numLayers).foldl (fun acc _ => decoderLayerShape hiddenSize acc) sh

/-- Shape of the last hidden state of `FlaxMixtralModule.__call__`
(lines 1116-1180): embedding, decoder stack, final RMS norm. -/
def mixtralModuleOutputShape (c : MixtralConfigData) (b s : ℕ) : ℕ × ℕ × ℕ :=
  decoderStackShape c.numHiddenLayers c.hiddenSize (embedTokensShape c.hiddenSize b s)

/-- Shape of the logits of `FlaxMixtralForCausalLMModule.__call__` (line
1235): `lm_head` is `nn.Dense(vocab_size)` over the last hidden state. -/
def causalLMLogitsShape (c : MixtralConfigData) (b s : ℕ) : ℕ × ℕ × ℕ :=
  ((mixtralModuleOutputShape c b s).1, (mixtralModuleOutputShape c b s).2.1, c.vocabSize)

/-- The attributes that exist on a `FlaxMixtralForCausalLMModule` instance:
its dataclass fields (lines 1188-1191) and the submodules assigned in
`setup` (lines 1193-1208).  A flax module raises AttributeError on any
other attribute access. -/
def causalLMModuleAttrs : List String :=
  ["config", "dtype", "param_dtype", "precision", "model", "lm_head"]

/-- Python attribute lookup on the causal-LM module: defined attributes
resolve, anything else raises AttributeError. -/
def causalLMGetAttr (attr : String) : Except String Unit :=
  if attr ∈ causalLMModuleAttrs then Except.ok ()
  else Except.error ("AttributeError: " ++ attr)

/-- Shallow embedding of the result shape and aux-loss behaviour of
`FlaxMixtralForCausalLMModule.__call__` (lines 1210-1260): the logits
always have shape (b, s, vocab_size); when router logits are requested the
aux-loss branch (lines 1237-1240) evaluates `self.num_experts` and
`self.num_experts_per_tok`, attributes the module never defines, so the
call raises AttributeError before any loss value is produced; when they
are not requested, aux_loss stays None. -/
def causalLMForwardShapes (c : MixtralConfigData) (b s : ℕ)
    (outputRouterLogits : Bool) : Except String ((ℕ × ℕ × ℕ) × Option ℚ) :=
  if outputRouterLogits then
    (causalLMGetAttr "num_experts").bind fun _ =>
      (causalLMGetAttr "num_experts_per_tok").bind fun _ =>
        -- dead code: both lookups above raise before any loss is computed
        Except.ok (causalLMLogitsShape c b s, some 0)
  else Except.ok (causalLMLogitsShape c b s, none)

/-- C9 (code bug): for the scenario configuration (vocab 32000, hidden 64,
heads 4, kv_heads 2, layers 2, experts 4, top_k 2), a Forward call on a
batch of 1 sequence of 5 token ids produces logits of shape (1, 5, 32000)
and aux_loss None when router logits are not requested; when they are
requested, the call raises AttributeError instead of returning a finite
non-negative scalar, because line 1239 reads `self.num_experts` and
`self.num_experts_per_tok` on a module that defines neither (the values
live on `self.config` as `num_local_experts` / `num_experts_per_tok`). -/
theorem claim_C9_forward_scenario :
    causalLMForwardShapes (mixtralConfigInit 32000 64 14336 2 4 (some 2) 2 4) 1 5 false
      = Except.ok ((1, 5, 32000), none) ∧
    causalLMForwardShapes (mixtralConfigInit 32000 64 14336 2 4 (some 2) 2 4) 1 5 true
      = Except.error "AttributeError: num_experts" := by
  constructor
  · rfl
  · rfl

/-- Row-major coordinates (slot index, token index) of the nonzero entries
of one expert's (top_k, tokens) slice of the dispatch mask, as
`jnp.nonzero` scans a 2-D array. -/
def nonzeroRowMajor {kk T : ℕ} (mask : Fin kk → Fin T → ℚ) : List (ℕ × ℕ) :=
  (List.finRange kk).flatMap fun j =>
    (List.finRange T).filterMap fun t =>
      if mask j t ≠ 0 then some (j.val, t.val) else none

/-- `jnp.nonzero(selected_mask, size=selected_mask.shape[-1])` (line 632):
the first `tokens` nonzero coordinates in row-major order, zero-padded when
there are fewer (the jnp fill value defaults to 0). -/
def nonzeroSized {kk T : ℕ} (mask : Fin kk → Fin T → ℚ) : List (ℕ × ℕ) :=
  (nonzeroRowMajor mask ++ List.replicate T (0, 0)).take T

/-- Python/jnp indexing of the flattened token axis by a possibly negative
integer, as `hidden_states[None, top_x]` resolves the -1 entries the source
substitutes at line 633: index -1 refers to the last token. -/
def gatherToken {T d : ℕ} (hidden : Fin T → Fin d → ℚ) (i : ℤ) : Fin d → ℚ :=
  if h : 0 < T then
    hidden ⟨(i % (T : ℤ)).toNat, by
      have h1 : 0 ≤ i % (T : ℤ) := Int.emod_nonneg i (by exact_mod_cast h.ne')
      have h2 : i % (T : ℤ) < (T : ℤ) := Int.emod_lt_of_pos i (by exact_mod_cast h)
      omega⟩
  else fun _ => 0

/-- The gather `routing_weights[top_x, idx]` (line 639) for a single pair
of a (possibly negative) token index and a slot index. -/
def gatherWeight {T kk : ℕ} (routingWeights : Fin T → Fin kk → ℚ) (i : ℤ) (j : ℕ) : ℚ :=
  if hj : j < kk then gatherToken routingWeights i ⟨j, hj⟩ else 0

/-- Shallow embedding of `custom_index_add_without_index_add` (lines
618-627).  The Python loop body computes
`final_hidden_states_.at[top_x[i]].set(final_hidden_states_[top_x[i]] +
current_hidden_states_[i])`, a pure JAX operation whose result is never
bound to any name, so every iteration leaves `final_hidden_states_`
unchanged and the function returns its first argument as received. -/
def customIndexAddWithoutIndexAdd {T d : ℕ} (finalHiddenStates : Fin T → Fin d → ℚ)
    (topX : List ℤ) (idx : List ℕ) (currentHiddenStates : List (Fin d → ℚ)) :
    Fin T → Fin d → ℚ :=
  (List.range topX.length).foldl
    (fun acc i =>
      let _updated : Fin T → Fin d → ℚ := fun t jj =>
        if (t.val : ℤ) = topX.getD i 0 then
          acc t jj + (currentHiddenStates.getD i fun _ => 0) jj
        else acc t jj
      acc)
    finalHiddenStates

/-- Shallow embedding of `FlaxMixtralBlocKSparesTop2MLPCollection.__call__`
(lines 605-648) on flattened hidden states of `T = batch * sequence`
tokens.  `experts` stands for the list `self.layers` of expert feed-forward
units, passed as opaque functions on token vectors.  The accumulator starts
as `jnp.zeros`; for each expert the call takes its (top_k, tokens) slice of
the dispatch mask, runs `jnp.nonzero(..., size=tokens)`, replaces token
index 0 by -1 (`jnp.where(top_x != 0, top_x, -1)`, line 633), skips the
expert when the index vector is statically empty, gathers the token
vectors, applies the expert and scales each row by its routing weight, and
hands everything to the index-add helper, which, as embedded above,
returns the accumulator unchanged. -/
def moeCollectionCall {T d kk E : ℕ}
    (experts : Fin E → (Fin d → ℚ) → Fin d → ℚ)
    (expertMask : Fin E → Fin kk → Fin T → ℚ)
    (hiddenStates : Fin T → Fin d → ℚ)
    (routingWeights : Fin T → Fin kk → ℚ) : Fin T → Fin d → ℚ :=
  (List.finRange E).foldl
    (fun finalHiddenStates expertIdx =>
      let coords := nonzeroSized (expertMask expertIdx)
      let idx : List ℕ := coords.map Prod.fst
      let topX : List ℤ := coords.map fun c => if c.2 ≠ 0 then (c.2 : ℤ) else -1
      if topX.length = 0 then finalHiddenStates
      else
        let currentState : List (Fin d → ℚ) := topX.map fun i => gatherToken hiddenStates i
        let currentHiddenStates : List (Fin d → ℚ) :=
          (List.range topX.length).map fun p jj =>
            experts expertIdx (currentState.getD p fun _ => 0) jj *
              gatherWeight routingWeights (topX.getD p 0) (idx.getD p 0)
        customIndexAddWithoutIndexAdd finalHiddenStates topX idx currentHiddenStates)
    (fun _ _ => 0)

theorem list_foldl_fixed {α β : Type} (l : List β) (a : α) :
    l.foldl (fun acc _ => acc) a = a := by
  induction l generalizing a with
  | nil => rfl
  | cons x xs ih => exact ih a

theorem list_foldl_eq_of_forall {α β : Type} (g : α → β → α) (h : ∀ a b, g a b = a)
    (l : List β) (a : α) : l.foldl g a = a := by
  induction l generalizing a with
  | nil => rfl
  | cons x xs ih =>
    rw [List.foldl_cons, h a x]
    exact ih a

theorem customIndexAddWithoutIndexAdd_returns_input {T d : ℕ}
    (finalHiddenStates : Fin T → Fin d → ℚ) (topX : List ℤ) (idx : List ℕ)
    (currentHiddenStates : List (Fin d → ℚ)) :
    customIndexAddWithoutIndexAdd finalHiddenStates topX idx currentHiddenStates
      = finalHiddenStates :=
  list_foldl_fixed (List.range topX.length) finalHiddenStates

theorem moeCollectionCall_eq_zero {T d kk E : ℕ}
    (experts : Fin E → (Fin d → ℚ) → Fin d → ℚ)
    (expertMask : Fin E → Fin kk → Fin T → ℚ)
    (hiddenStates : Fin T → Fin d → ℚ)
    (routingWeights : Fin T → Fin kk → ℚ) :
    moeCollectionCall experts expertMask hiddenStates routingWeights = fun _ _ => 0 := by
  unfold moeCollectionCall
  apply list_foldl_eq_of_forall
  intro a e
  show (if ((nonzeroSized (expertMask e)).map
        fun c => if c.2 ≠ 0 then ((c.2 : ℕ) : ℤ) else -1).length = 0 then a
    else customIndexAddWithoutIndexAdd a _ _ _) = a
  split
  · rfl
  · exact customIndexAddWithoutIndexAdd_returns_input a _ _ _

/-- Follows the spec, section 4.4 steps 5-6 and claim C1: the combined
output at a token position is the sum, over the token's selected experts,
of the renormalized routing weight times the expert unit's output on that
token.  Follows the words of the spec, not the source; used only to
exhibit the divergence from moeCollectionCall. -/
def specMoeCombinedOutput {T d kk E : ℕ}
    (experts : Fin E → (Fin d → ℚ) → Fin d → ℚ)
    (selectedExperts : Fin T → Fin kk → Fin E)
    (routingWeights : Fin T → Fin kk → ℚ)
    (hiddenStates : Fin T → Fin d → ℚ) : Fin T → Fin d → ℚ :=
  fun t jj => ∑ p, routingWeights t p * experts (selectedExperts t p) (hiddenStates t) jj

/-- C1 (code bug): the combined output of the expert collection is
identically zero for every input, whatever the experts, dispatch mask,
hidden states and routing weights are, because the index-add helper
discards the result of every functional `.at[].set()` update; on the
concrete one-token input with a single identity expert of weight 1, the
weighted-sum output the spec describes is 1, not 0. -/
theorem claim_C1_moe_combined_output_zero :
    (∀ (T d kk E : ℕ) (experts : Fin E → (Fin d → ℚ) → Fin d → ℚ)
      (expertMask : Fin E → Fin kk → Fin T → ℚ)
      (hiddenStates : Fin T → Fin d → ℚ) (routingWeights : Fin T → Fin kk → ℚ),
      moeCollectionCall experts expertMask hiddenStates routingWeights = fun _ _ => 0) ∧
    specMoeCombinedOutput (fun (_ : Fin 2) (x : Fin 1 → ℚ) => x)
      (fun (_ : Fin 1) (_ : Fin 1) => (0 : Fin 2))
      (fun _ _ => 1) (fun _ _ => 1) 0 0 = 1 := by
  constructor
  · intro T d kk E experts expertMask hiddenStates routingWeights
    exact moeCollectionCall_eq_zero experts expertMask hiddenStates routingWeights
  · simp [specMoeCombinedOutput]
